import Mathlib

/-!
Verification of the QoE-metric extraction pipeline (extract_qoe_metrics.py).

The source scans WebRTC receiver logs line by line with three regular
expressions (timing breakdown, freeze snapshot, bitrate snapshot),
reconstructs per-event freeze durations from cumulative counters, and
reduces timing samples to distribution summaries.

Embedding choices:
* a log line is a `List Char`; a log source is a `List (List Char)`;
* each concrete regular expression of the source is embedded as a
  character-level matcher with Python re.search semantics (leftmost
  match; lazy gaps take the first following occurrence, greedy gaps the
  last; greedy digit/whitespace runs are maximal-munch, which is exact
  here because every such run is followed by a character outside its
  class);
* Python ints become `Nat`/`Int`; float results become `Rat` (exact
  arithmetic in place of IEEE doubles); float() applied to a captured
  string is fallible (ValueError on a capture such as "1.2.3", which the
  character class of the ratio group admits), so the freeze parser
  returns `Except Unit _`.
-/

/-- Python regex digit class (ASCII case), as matched by the patterns. -/
def isDigitC (c : Char) : Bool := c.isDigit

/-- Python regex whitespace class (ASCII case). -/
def isSpaceC (c : Char) : Bool :=
  c = ' ' || c = '\t' || c = '\n' || c = '\r' || c = Char.ofNat 11 || c = Char.ofNat 12

/-- Numeric value of a run of decimal digits, as Python int() of a capture. -/
def digitsToNat (ds : List Char) : Nat :=
  ds.foldl (fun a c => 10 * a + (c.toNat - 48)) 0

/-- Match a literal at the head of the text; return the remainder on success. -/
def dropLit : List Char → List Char → Option (List Char)
  | [], s => some s
  | _ :: _, [] => none
  | a :: as, c :: cs => if a = c then dropLit as cs else none

/-- Python substring containment (the marker checks of the form m in line). -/
def containsSub (needle : List Char) : List Char → Bool
  | [] => (dropLit needle []).isSome
  | c :: cs => (dropLit needle (c :: cs)).isSome || containsSub needle cs

/-- Leftmost search: try the anchored matcher at each suffix, first hit wins.
This is re.search resolution of a lazy gap before the matcher. -/
def searchFrom (f : List Char → Option α) : List Char → Option α
  | [] => f []
  | c :: cs =>
    match f (c :: cs) with
    | some r => some r
    | none => searchFrom f cs

/-- Rightmost search: last suffix where the anchored matcher succeeds.
This is re.search resolution of a greedy gap before the matcher. -/
def searchLast (f : List Char → Option α) : List Char → Option α
  | [] => f []
  | c :: cs =>
    match searchLast f cs with
    | some r => some r
    | none => f (c :: cs)

/-- Greedy nonempty digit run: the capture of a parenthesised digit group. -/
def takeDigits1 (s : List Char) : Option (Nat × List Char) :=
  let ds := s.takeWhile isDigitC
  if ds.isEmpty then none else some (digitsToNat ds, s.dropWhile isDigitC)

/-- Greedy possibly-empty whitespace run (the s-star of the patterns). -/
def dropWs (s : List Char) : List Char := s.dropWhile isSpaceC

/-- Greedy nonempty whitespace run (the s-plus of the timing pattern). -/
def takeWs1 (s : List Char) : Option (List Char) :=
  let ws := s.takeWhile isSpaceC
  if ws.isEmpty then none else some (s.dropWhile isSpaceC)

/-- One parsed TIMING-BREAKDOWN observation: the eight captured fields. -/
structure TimingSample where
  e2e : Nat
  encode : Nat
  pacer : Nat
  network : Nat
  jitter_buf : Nat
  packet_buf : Nat
  frame_buf : Nat
  decode : Nat
deriving Repr, DecidableEq

/-- One labelled field of the timing pattern: optional leading s-plus run,
the literal label, a captured digit run, and the trailing literal (ms,
or ms followed by the closing parenthesis). -/
def fieldNat (needWs : Bool) (label tail t : List Char) : Option (Nat × List Char) :=
  match (if needWs then takeWs1 t else some t) with
  | none => none
  | some t1 =>
    match dropLit label t1 with
    | none => none
    | some t2 =>
      match takeDigits1 t2 with
      | none => none
      | some (v, t3) =>
        match dropLit tail t3 with
        | none => none
        | some t4 => some (v, t4)

/-- Anchored tail of the timing pattern, starting at the field list:
e2e=(d+)ms s+ encode=(d+)ms s+ pacer=(d+)ms s+ network=(d+)ms s+
jitter_buf=(d+)ms s+ lparen packet_buf=(d+)ms s+ frame_buf=(d+)ms rparen
s+ decode=(d+)ms. -/
def tryTimingAt (t0 : List Char) : Option TimingSample :=
  match fieldNat false "e2e=".data "ms".data t0 with
  | none => none
  | some (a1, u1) =>
   match fieldNat true "encode=".data "ms".data u1 with
   | none => none
   | some (a2, u2) =>
    match fieldNat true "pacer=".data "ms".data u2 with
    | none => none
    | some (a3, u3) =>
     match fieldNat true "network=".data "ms".data u3 with
     | none => none
     | some (a4, u4) =>
      match fieldNat true "jitter_buf=".data "ms".data u4 with
      | none => none
      | some (a5, u5) =>
       match fieldNat true "(packet_buf=".data "ms".data u5 with
       | none => none
       | some (a6, u6) =>
        match fieldNat true "frame_buf=".data "ms)".data u6 with
        | none => none
        | some (a7, u7) =>
         match fieldNat true "decode=".data "ms".data u7 with
         | none => none
         | some (a8, _) => some ⟨a1, a2, a3, a4, a5, a6, a7, a8⟩

/-- Per-line matching step of parse_timing_breakdown: the marker containment
check followed by re.search of the strict pattern (the leading bracketed
marker literal, a lazy gap, then the field list). -/
def timingLine (line : List Char) : Option TimingSample :=
  if containsSub "TIMING-BREAKDOWN".data line then
    match searchFrom (dropLit "[TIMING-BREAKDOWN]".data) line with
    | none => none
    | some rest => searchFrom tryTimingAt rest
  else none

/-- The eight per-channel sample lists accumulated by parse_timing_breakdown. -/
structure Timings where
  e2e : List Nat
  encode : List Nat
  pacer : List Nat
  network : List Nat
  jitter_buf : List Nat
  packet_buf : List Nat
  frame_buf : List Nat
  decode : List Nat
deriving Repr, DecidableEq

/-- The initial empty channel lists of parse_timing_breakdown. -/
def emptyTimings : Timings := ⟨[], [], [], [], [], [], [], []⟩

/-- Append the eight captures of one matching line to the channel lists. -/
def pushSample (t : Timings) (s : TimingSample) : Timings :=
  ⟨t.e2e ++ [s.e2e], t.encode ++ [s.encode], t.pacer ++ [s.pacer],
   t.network ++ [s.network], t.jitter_buf ++ [s.jitter_buf],
   t.packet_buf ++ [s.packet_buf], t.frame_buf ++ [s.frame_buf],
   t.decode ++ [s.decode]⟩

/-- parse_timing_breakdown: scan the lines in order, appending the captures
of every matching line to all eight channel lists. -/
def parse_timing_breakdown (lines : List (List Char)) : Timings :=
  lines.foldl
    (fun acc line =>
      match timingLine line with
      | some s => pushSample acc s
      | none => acc)
    emptyTimings

/-- One parsed VideoQuality-CoreFreeze observation (the four captures of the
freeze pattern, with the ratio already converted by float()). -/
structure FreezeSnapshot where
  freeze_count : Nat
  freeze_duration_ms : Nat
  rebuffering_ratio : Rat
  playback_duration_ms : Nat
deriving Repr, DecidableEq

/-- One labelled integer field of the freeze/bitrate patterns: the literal
label, an s-star run, then a captured digit run. -/
def tryLabeledNat (label t : List Char) : Option (Nat × List Char) :=
  match dropLit label t with
  | none => none
  | some t1 => takeDigits1 (dropWs t1)

/-- Character class of the ratio capture group: digits and the dot. -/
def isRatChar (c : Char) : Bool := c.isDigit || c = '.'

/-- The labelled ratio field: the literal label, an s-star run, then a
captured nonempty run of digits and dots (the capture is kept as text,
since its float() conversion can fail). -/
def tryLabeledRat (label t : List Char) : Option (List Char × List Char) :=
  match dropLit label t with
  | none => none
  | some t1 =>
    let t2 := dropWs t1
    let ds := t2.takeWhile isRatChar
    if ds.isEmpty then none else some (ds, t2.dropWhile isRatChar)

/-- Per-line matching of the freeze pattern of parse_freeze_rate: the marker
containment check, then re.search of: the bracketed marker literal and, each
after a lazy gap, Freeze Count, Total Freeze Duration (ms), Rebuffering
Ratio, and Playback Duration (ms), labelled captures as above. -/
def freezeLineRaw (line : List Char) : Option (Nat × Nat × List Char × Nat) :=
  if containsSub "VideoQuality-CoreFreeze".data line then
    match searchFrom (dropLit "[VideoQuality-CoreFreeze]".data) line with
    | none => none
    | some t0 =>
      match searchFrom (tryLabeledNat "Freeze Count:".data) t0 with
      | none => none
      | some (c, t1) =>
        match searchFrom (tryLabeledNat "Total Freeze Duration (ms):".data) t1 with
        | none => none
        | some (d, t2) =>
          match searchFrom (tryLabeledRat "Rebuffering Ratio:".data) t2 with
          | none => none
          | some (r, t3) =>
            match searchFrom (tryLabeledNat "Playback Duration (ms):".data) t3 with
            | none => none
            | some (p, _) => some (c, d, r, p)
  else none

/-- Python float() on a capture of the ratio group (digits and dots only):
at most one dot and at least one digit give its rational value; a second
dot or a lone dot raise ValueError, modelled as none. -/
def pyFloat (s : List Char) : Option Rat :=
  let intPart := s.takeWhile (fun c => c ≠ '.')
  match s.dropWhile (fun c => c ≠ '.') with
  | [] => if s.isEmpty then none else some (digitsToNat s : Rat)
  | _ :: frac =>
    if frac.any (fun c => c = '.') then none
    else if intPart.isEmpty && frac.isEmpty then none
    else some ((digitsToNat intPart : Rat) + (digitsToNat frac : Rat) / (10 : Rat) ^ frac.length)

/-- The freeze snapshot a single line contributes: the raw captures with the
ratio successfully converted by float(). -/
def snapOfLine (line : List Char) : Option FreezeSnapshot :=
  match freezeLineRaw line with
  | none => none
  | some (c, d, rs, p) =>
    match pyFloat rs with
    | none => none
    | some r => some ⟨c, d, r, p⟩

/-- The loop of parse_freeze_rate: the running last-match variable starts at
None; each matching line overwrites it; float() of a matched but malformed
ratio capture raises, aborting the scan. -/
def parseFreezeGo (acc : Option FreezeSnapshot) :
    List (List Char) → Except Unit (Option FreezeSnapshot)
  | [] => Except.ok acc
  | line :: rest =>
    match freezeLineRaw line with
    | none => parseFreezeGo acc rest
    | some (c, d, rs, p) =>
      match pyFloat rs with
      | none => Except.error ()
      | some r => parseFreezeGo (some ⟨c, d, r, p⟩) rest

/-- parse_freeze_rate: last-wins scan of the freeze pattern over all lines. -/
def parse_freeze_rate (lines : List (List Char)) : Except Unit (Option FreezeSnapshot) :=
  parseFreezeGo none lines

/-- Per-line matching of the bitrate pattern of parse_bitrate: the marker
containment check, then re.search of the bracketed marker literal, a lazy
gap, and the labelled Payload Bytes Received capture. -/
def bitrateLine (line : List Char) : Option Nat :=
  if containsSub "VideoQuality-Bitrate".data line then
    match searchFrom (dropLit "[VideoQuality-Bitrate]".data) line with
    | none => none
    | some t0 =>
      match searchFrom (tryLabeledNat "Payload Bytes Received:".data) t0 with
      | none => none
      | some (b, _) => some b
  else none

/-- parse_bitrate: last-wins scan of the bitrate pattern over all lines. -/
def parse_bitrate (lines : List (List Char)) : Option Nat :=
  lines.foldl
    (fun acc line =>
      match bitrateLine line with
      | some b => some b
      | none => acc)
    none

/-- The fixed statistics record of calc_stats. np.std is the square root of
the population variance; `Rat` has no square roots, so the field `var`
stores its square (the population variance) exactly; no other deviation.
All other fields are the exact rational values of the float outputs. -/
structure DistributionSummary where
  mean : Rat
  var : Rat
  min : Rat
  p10 : Rat
  p25 : Rat
  p50 : Rat
  p75 : Rat
  p90 : Rat
  max : Rat
  count : Nat
deriving Repr, DecidableEq

/-- np.min: the least element of a nonempty array (0 on an empty one,
which calc_stats never passes). -/
def npMin : List Rat → Rat
  | [] => 0
  | x :: xs => xs.foldl min x

/-- np.max: the greatest element of a nonempty array (0 on an empty one,
which calc_stats never passes). -/
def npMax : List Rat → Rat
  | [] => 0
  | x :: xs => xs.foldl max x

/-- Linear interpolation of a sorted sample array at a fractional rank:
floor the position, and interpolate between the order statistic there and
the next one (at the top rank there is no next one and the fractional part
of a position within range is zero, so the last element is returned). -/
def interpAt (s : List Rat) (pos : Rat) : Rat :=
  match s[(⌊pos⌋).toNat]?, s[(⌊pos⌋).toNat + 1]? with
  | some a, some b => a + (pos - ((⌊pos⌋).toNat : Rat)) * (b - a)
  | some a, none => a
  | none, _ => 0

/-- np.percentile with the default linear interpolation: sort ascending and
interpolate at position q/100 * (n-1). -/
def percentile (l : List Rat) (q : Rat) : Rat :=
  interpAt (List.insertionSort (fun a b => a ≤ b) l) (q * ((l.length : Rat) - 1) / 100)

/-- calc_stats: None on an empty list, otherwise the fixed statistics of
the sample list (mean, population standard deviation squared into `var`,
min, the five percentiles, max, count). -/
def calc_stats (data : List Rat) : Option DistributionSummary :=
  if data.isEmpty then none
  else
    let m := data.sum / (data.length : Rat)
    some
      { mean := m
        var := (data.map (fun x => (x - m) ^ 2)).sum / (data.length : Rat)
        min := npMin data
        p10 := percentile data 10
        p25 := percentile data 25
        p50 := percentile data 50
        p75 := percentile data 75
        p90 := percentile data 90
        max := npMax data
        count := data.length }

/-- The per-channel statistics entries of the aggregator: a channel with an
empty sample list gets no entry; one with samples gets calc_stats of the
integer samples read as floats. -/
def statsEntry (values : List Nat) : Option DistributionSummary :=
  if values.isEmpty then none
  else calc_stats (values.map (fun v : Nat => (v : Rat)))

/-- The timing section of one SourceResult: one optional summary per fixed
channel key, in the iteration order of the source's dict. -/
structure TimingStats where
  e2e : Option DistributionSummary
  encode : Option DistributionSummary
  pacer : Option DistributionSummary
  network : Option DistributionSummary
  jitter_buf : Option DistributionSummary
  packet_buf : Option DistributionSummary
  frame_buf : Option DistributionSummary
  decode : Option DistributionSummary
deriving Repr, DecidableEq

/-- The per-source result object of analyze_log (the file-path field is
presentation metadata and is not modelled). -/
structure SourceResult where
  timing : TimingStats
  freeze : Option FreezeSnapshot
  bitrate_mbps : Option Rat
deriving Repr, DecidableEq

/-- analyze_log: run the three parsers over the source, summarise each
nonempty timing channel, keep the freeze snapshot, and derive the bitrate
only when the byte count is truthy (nonzero and present), a freeze
snapshot exists, and its playback duration is positive. A ValueError
escaping parse_freeze_rate propagates. -/
def analyze_log (lines : List (List Char)) : Except Unit SourceResult :=
  let timings := parse_timing_breakdown lines
  (parse_freeze_rate lines).map (fun freeze_info =>
    let bytes_received := parse_bitrate lines
    { timing :=
        { e2e := statsEntry timings.e2e
          encode := statsEntry timings.encode
          pacer := statsEntry timings.pacer
          network := statsEntry timings.network
          jitter_buf := statsEntry timings.jitter_buf
          packet_buf := statsEntry timings.packet_buf
          frame_buf := statsEntry timings.frame_buf
          decode := statsEntry timings.decode }
      freeze := freeze_info
      bitrate_mbps :=
        match bytes_received, freeze_info with
        | some b, some fi =>
          if b ≠ 0 ∧ 0 < fi.playback_duration_ms then
            some ((b : Rat) * 8 / (fi.playback_duration_ms : Rat) / 1000)
          else none
        | _, _ => none })

/-- The anchored count field of the reconstructor's pattern: the literal
label with its single space, then a captured digit run. -/
def tryReconCount (t : List Char) : Option (Nat × List Char) :=
  match dropLit "Freeze Count: ".data t with
  | none => none
  | some t1 => takeDigits1 t1

/-- The anchored duration field of the reconstructor's pattern. -/
def tryReconDur (t : List Char) : Option Nat :=
  match dropLit "Total Freeze Duration (ms): ".data t with
  | none => none
  | some t1 =>
    match takeDigits1 t1 with
    | none => none
    | some (d, _) => some d

/-- Per-line matching of extract_freeze_durations: the marker containment
check, then re.search of: Freeze Count with one space and a capture, a
greedy gap, and Total Freeze Duration (ms) with one space and a capture
(the greedy gap selects the last duration occurrence). -/
def reconLine (line : List Char) : Option (Nat × Nat) :=
  if containsSub "VideoQuality-CoreFreeze".data line then
    match searchFrom tryReconCount line with
    | none => none
    | some (c, rest) =>
      match searchLast tryReconDur rest with
      | none => none
      | some d => some (c, d)
  else none

/-- The loop state of extract_freeze_durations: the running previous
(count, duration) pair and the durations emitted so far. -/
def freezeStep (st : (Nat × Nat) × List Int) (sn : Nat × Nat) : (Nat × Nat) × List Int :=
  if st.1.1 < sn.1 then (sn, st.2 ++ [(sn.2 : Int) - (st.1.2 : Int)]) else st

/-- The reconstruction loop on an already-extracted snapshot sequence,
starting from a given previous state and accumulator. -/
def freezeGo (st : (Nat × Nat) × List Int) (snaps : List (Nat × Nat)) : List Int :=
  (snaps.foldl freezeStep st).2

/-- The Freeze-Delta Reconstructor on a snapshot sequence: previous state
starts at (0, 0) with no events emitted. -/
def freezeDeltas (snaps : List (Nat × Nat)) : List Int :=
  freezeGo ((0, 0), []) snaps

/-- extract_freeze_durations: scan the lines, and fold every line matched by
the reconstructor's pattern through the cumulative-delta loop. -/
def extract_freeze_durations (lines : List (List Char)) : List Int :=
  freezeDeltas (lines.filterMap reconLine)

/-- Opening one source in directory mode: a readable source yields its
lines, an unreadable one raises an I/O error. -/
def readSource : Option (List (List Char)) → Except Unit (List (List Char))
  | none => Except.error ()
  | some ls => Except.ok ls

/-- The directory branch of main: analyze each source in order, collecting
the per-source results; any exception propagates and aborts the loop. -/
def run_directory : List (Option (List (List Char))) → Except Unit (List SourceResult)
  | [] => Except.ok []
  | src :: rest =>
    match readSource src with
    | Except.error e => Except.error e
    | Except.ok lines =>
      match analyze_log lines with
      | Except.error e => Except.error e
      | Except.ok r =>
        match run_directory rest with
        | Except.error e => Except.error e
        | Except.ok rs => Except.ok (r :: rs)

/-- The samples one channel receives: the captures of the matching lines,
projected by the channel's field, in file order. -/
def tmChannel (f : TimingSample → Nat) (lines : List (List Char)) : List Nat :=
  lines.filterMap (fun l => (timingLine l).map f)

/-- The sample count recorded by an optional channel summary. -/
def countOf (o : Option DistributionSummary) : Option Nat :=
  o.map DistributionSummary.count

/-- A well-formed timing-breakdown log line. -/
def tlSample : List Char :=
  "[TIMING-BREAKDOWN] e2e=50ms encode=5ms pacer=3ms network=20ms jitter_buf=12ms (packet_buf=7ms frame_buf=5ms) decode=4ms".data

/-- A line carrying the timing marker but failing the strict pattern. -/
def tlBroken : List Char := "[TIMING-BREAKDOWN] e2e=50ms encode=".data

/-- A well-formed freeze log line (count 1, duration 100, ratio 0.01,
playback 1000). -/
def flOne : List Char :=
  "[VideoQuality-CoreFreeze] Freeze Count: 1 Total Freeze Duration (ms): 100 Rebuffering Ratio: 0.01 Playback Duration (ms): 1000".data

/-- A well-formed freeze log line (count 3, duration 120, ratio 0.015,
playback 8000). -/
def flEight : List Char :=
  "[VideoQuality-CoreFreeze] Freeze Count: 3 Total Freeze Duration (ms): 120 Rebuffering Ratio: 0.015 Playback Duration (ms): 8000".data

/-- A well-formed bitrate log line (1,000,000 payload bytes). -/
def blMeg : List Char := "[VideoQuality-Bitrate] Payload Bytes Received: 1000000".data

/-- A well-formed bitrate log line with a zero byte count. -/
def blZero : List Char := "[VideoQuality-Bitrate] Payload Bytes Received: 0".data

/-- A freeze line whose ratio field matches the ratio character class but is
not a float literal: float() raises ValueError on its capture. -/
def flBadRatio : List Char :=
  "[VideoQuality-CoreFreeze] Freeze Count: 1 Total Freeze Duration (ms): 2 Rebuffering Ratio: 1.2.3 Playback Duration (ms): 4".data

/-- A line with the bare freeze marker, count and duration fields, but no
bracketed marker, ratio or playback fields: the reconstructor's pattern
matches it, the freeze parser's pattern does not. -/
def flNoBracket : List Char :=
  "VideoQuality-CoreFreeze Freeze Count: 3 Total Freeze Duration (ms): 100".data

/-- A well-formed freeze line with a repeated duration field: the freeze
parser's lazy gap reads the first duration, the reconstructor's greedy gap
reads the last. -/
def flTwoDur : List Char :=
  "[VideoQuality-CoreFreeze] Freeze Count: 2 Total Freeze Duration (ms): 50 Total Freeze Duration (ms): 75 Rebuffering Ratio: 0.5 Playback Duration (ms): 100".data

/-- The summary calc_stats produces for a one-element sample list. -/
def singletonStats (x : Nat) : DistributionSummary :=
  ⟨x, 0, x, x, x, x, x, x, x, 1⟩

/-- The result of analyze_log on the source holding just tlSample. -/
def wRes10 : SourceResult :=
  ⟨⟨some (singletonStats 50), some (singletonStats 5), some (singletonStats 3),
    some (singletonStats 20), some (singletonStats 12), some (singletonStats 7),
    some (singletonStats 5), some (singletonStats 4)⟩,
   none, none⟩

/-- Acceptance of a line by the freeze parser's float conversion: either the
pattern does not match, or the matched ratio capture is a float literal. -/
def ratioOk (line : List Char) : Bool :=
  match freezeLineRaw line with
  | none => true
  | some (_, _, rs, _) => (pyFloat rs).isSome

/-- Last-wins fold target: the last element of a list if any, else a default
running value. -/
def lastD (l : List α) (a : Option α) : Option α :=
  match l.getLast? with
  | some x => some x
  | none => a

/-- The snapshot parsed from flEight. -/
def fi8 : FreezeSnapshot := ⟨3, 120, 3 / 200, 8000⟩

/-- The timing section with every channel absent. -/
def wTimingNone : TimingStats := ⟨none, none, none, none, none, none, none, none⟩

/-- The result of analyze_log on an empty source. -/
def wRes7 : SourceResult := ⟨wTimingNone, none, none⟩

/-- The result of analyze_log on a source with a zero-byte bitrate line and
the flEight freeze line. -/
def wRes2z : SourceResult := ⟨wTimingNone, some fi8, none⟩

/-- The result of analyze_log on a source with the blMeg bitrate line and
the flEight freeze line. -/
def wRes2m : SourceResult := ⟨wTimingNone, some fi8, some 1⟩

/-- The reconstruction rule in the form the specification states it: walk
the snapshots with a running previous pair; a snapshot whose count exceeds
the previous one's emits one event equal to the duration delta and becomes
the new previous; otherwise nothing is emitted and the state is kept. -/
def specFreezeEvents : Nat × Nat → List (Nat × Nat) → List Int
  | _, [] => []
  | prev, sn :: rest =>
    if prev.1 < sn.1 then ((sn.2 : Int) - (prev.2 : Int)) :: specFreezeEvents sn rest
    else specFreezeEvents prev rest

theorem freezeGo_eq_spec (snaps : List (Nat × Nat)) :
    ∀ st : (Nat × Nat) × List Int, freezeGo st snaps = st.2 ++ specFreezeEvents st.1 snaps := by
  induction snaps with
  | nil => intro st; simp [freezeGo, specFreezeEvents]
  | cons sn rest ih =>
    intro st
    show freezeGo (freezeStep st sn) rest = _
    rw [ih (freezeStep st sn)]
    by_cases h : st.1.1 < sn.1
    · simp [freezeStep, h, specFreezeEvents]
    · simp [freezeStep, h, specFreezeEvents]

/-- Claim C1: starting from previous state (count 0, duration 0), each
snapshot whose count strictly exceeds the previous state's count emits
exactly one event whose duration is the difference of the cumulative
durations and advances the state to that snapshot, while a snapshot whose
count is unchanged or lower emits nothing and leaves the state unchanged;
on [(1,100), (2,250), (2,250), (4,400)] the events are [100, 150, 150]. -/
theorem c1_freeze_delta_reconstruction :
    (∀ snaps : List (Nat × Nat), freezeDeltas snaps = specFreezeEvents (0, 0) snaps)
    ∧ freezeDeltas [(1, 100), (2, 250), (2, 250), (4, 400)] = [100, 150, 150] := by
  constructor
  · intro snaps
    rw [freezeDeltas, freezeGo_eq_spec]
    rfl
  · decide

theorem specFreezeEvents_nonneg (snaps : List (Nat × Nat)) :
    ∀ prev : Nat × Nat, List.Chain' (fun a b : Nat × Nat => a.2 ≤ b.2) snaps →
    (∀ sn ∈ snaps.head?, prev.2 ≤ sn.2) →
    ∀ x ∈ specFreezeEvents prev snaps, 0 ≤ x := by
  induction snaps with
  | nil => intro prev _ _ x hx; simp [specFreezeEvents] at hx
  | cons sn rest ih =>
    intro prev hchain hhead x hx
    rw [List.chain'_cons'] at hchain
    have hps : prev.2 ≤ sn.2 := hhead sn (by simp)
    by_cases h : prev.1 < sn.1
    · rw [specFreezeEvents, if_pos h] at hx
      rcases List.mem_cons.1 hx with h1 | h1
      · subst h1
        have : (prev.2 : Int) ≤ (sn.2 : Int) := by exact_mod_cast hps
        omega
      · exact ih sn hchain.2 hchain.1 x h1
    · rw [specFreezeEvents, if_neg h] at hx
      refine ih prev hchain.2 ?_ x hx
      intro sn2 hsn2
      exact le_trans hps (hchain.1 sn2 hsn2)

/-- Claim C9: on a snapshot sequence whose cumulative freeze duration is
monotonically non-decreasing, every event duration emitted by the
Freeze-Delta Reconstructor is non-negative. -/
theorem c9_freeze_event_nonneg (snaps : List (Nat × Nat))
    (hmono : List.Chain' (fun a b : Nat × Nat => a.2 ≤ b.2) snaps) :
    ∀ x ∈ freezeDeltas snaps, 0 ≤ x := by
  intro x hx
  rw [freezeDeltas, freezeGo_eq_spec] at hx
  exact specFreezeEvents_nonneg snaps (0, 0) hmono (fun sn _ => Nat.zero_le sn.2) x hx

/-- Concrete instance of C9 at the monotone sequence [(1,100), (2,250)]. -/
theorem c9_freeze_event_nonneg_witness :
    List.Chain' (fun a b : Nat × Nat => a.2 ≤ b.2) [(1, 100), (2, 250)]
    ∧ ∀ x ∈ freezeDeltas [(1, 100), (2, 250)], 0 ≤ x :=
  ⟨by simp [List.chain_cons], c9_freeze_event_nonneg [(1, 100), (2, 250)] (by simp [List.chain_cons])⟩

theorem parse_timing_go (lines : List (List Char)) :
    ∀ acc : Timings,
      lines.foldl
        (fun acc line =>
          match timingLine line with
          | some s => pushSample acc s
          | none => acc) acc
      = ⟨acc.e2e ++ tmChannel TimingSample.e2e lines,
         acc.encode ++ tmChannel TimingSample.encode lines,
         acc.pacer ++ tmChannel TimingSample.pacer lines,
         acc.network ++ tmChannel TimingSample.network lines,
         acc.jitter_buf ++ tmChannel TimingSample.jitter_buf lines,
         acc.packet_buf ++ tmChannel TimingSample.packet_buf lines,
         acc.frame_buf ++ tmChannel TimingSample.frame_buf lines,
         acc.decode ++ tmChannel TimingSample.decode lines⟩ := by
  induction lines with
  | nil =>
    intro acc
    obtain ⟨a1, a2, a3, a4, a5, a6, a7, a8⟩ := acc
    simp [tmChannel]
  | cons line rest ih =>
    intro acc
    rw [List.foldl_cons]
    cases h : timingLine line with
    | some s =>
      change List.foldl _ (pushSample acc s) rest = _
      rw [ih (pushSample acc s)]
      simp [tmChannel, pushSample, List.filterMap_cons, h]
    | none =>
      change List.foldl _ acc rest = _
      rw [ih acc]
      simp [tmChannel, List.filterMap_cons, h]

theorem parse_timing_channels (lines : List (List Char)) :
    parse_timing_breakdown lines
      = ⟨tmChannel TimingSample.e2e lines, tmChannel TimingSample.encode lines,
         tmChannel TimingSample.pacer lines, tmChannel TimingSample.network lines,
         tmChannel TimingSample.jitter_buf lines, tmChannel TimingSample.packet_buf lines,
         tmChannel TimingSample.frame_buf lines, tmChannel TimingSample.decode lines⟩ := by
  rw [parse_timing_breakdown, parse_timing_go lines emptyTimings]
  rfl

theorem tmChannel_length (f : TimingSample → Nat) (lines : List (List Char)) :
    (tmChannel f lines).length = lines.countP (fun l => (timingLine l).isSome) := by
  induction lines with
  | nil => rfl
  | cons line rest ih =>
    cases h : timingLine line with
    | some s =>
      have hc : tmChannel f (line :: rest) = f s :: tmChannel f rest := by
        simp [tmChannel, List.filterMap_cons, h]
      rw [hc, List.countP_cons]
      simp [h, ih]
    | none =>
      have hc : tmChannel f (line :: rest) = tmChannel f rest := by
        simp [tmChannel, List.filterMap_cons, h]
      rw [hc, List.countP_cons]
      simp [h, ih]

/-- Claim C3: the extractor yields, per channel, exactly the captures of the
lines satisfying the strict pattern, in file order — hence exactly N
samples per channel when N lines match — and a line that fails the strict
pattern (in particular one carrying the marker alone) contributes no
sample and does not disturb the scan of the remaining lines. -/
theorem c3_pattern_extractor_timing :
    (∀ lines, parse_timing_breakdown lines
        = ⟨tmChannel TimingSample.e2e lines, tmChannel TimingSample.encode lines,
           tmChannel TimingSample.pacer lines, tmChannel TimingSample.network lines,
           tmChannel TimingSample.jitter_buf lines, tmChannel TimingSample.packet_buf lines,
           tmChannel TimingSample.frame_buf lines, tmChannel TimingSample.decode lines⟩)
    ∧ (∀ lines, (parse_timing_breakdown lines).e2e.length
          = lines.countP (fun l => (timingLine l).isSome)
        ∧ (parse_timing_breakdown lines).encode.length
          = lines.countP (fun l => (timingLine l).isSome)
        ∧ (parse_timing_breakdown lines).pacer.length
          = lines.countP (fun l => (timingLine l).isSome)
        ∧ (parse_timing_breakdown lines).network.length
          = lines.countP (fun l => (timingLine l).isSome)
        ∧ (parse_timing_breakdown lines).jitter_buf.length
          = lines.countP (fun l => (timingLine l).isSome)
        ∧ (parse_timing_breakdown lines).packet_buf.length
          = lines.countP (fun l => (timingLine l).isSome)
        ∧ (parse_timing_breakdown lines).frame_buf.length
          = lines.countP (fun l => (timingLine l).isSome)
        ∧ (parse_timing_breakdown lines).decode.length
          = lines.countP (fun l => (timingLine l).isSome))
    ∧ (∀ line lines, timingLine line = none →
        parse_timing_breakdown (line :: lines) = parse_timing_breakdown lines) := by
  refine ⟨parse_timing_channels, ?_, ?_⟩
  · intro lines
    rw [parse_timing_channels lines]
    exact ⟨tmChannel_length _ lines, tmChannel_length _ lines, tmChannel_length _ lines,
      tmChannel_length _ lines, tmChannel_length _ lines, tmChannel_length _ lines,
      tmChannel_length _ lines, tmChannel_length _ lines⟩
  · intro line lines h
    rw [parse_timing_channels, parse_timing_channels]
    have hc : ∀ f : TimingSample → Nat, tmChannel f (line :: lines) = tmChannel f lines := by
      intro f
      simp [tmChannel, List.filterMap_cons, h]
    rw [hc, hc, hc, hc, hc, hc, hc, hc]

/-- Concrete instance of C3: a marker-carrying line that fails the strict
pattern is skipped and the scan of the remaining lines is undisturbed. -/
theorem c3_pattern_extractor_timing_witness :
    timingLine tlBroken = none
    ∧ parse_timing_breakdown [tlBroken, tlSample] = parse_timing_breakdown [tlSample] :=
  ⟨by decide, c3_pattern_extractor_timing.2.2 tlBroken [tlSample] (by decide)⟩

theorem calc_stats_count (l : List Rat) (s : DistributionSummary)
    (h : calc_stats l = some s) : s.count = l.length := by
  rw [calc_stats] at h
  by_cases hl : l.isEmpty
  · rw [if_pos hl] at h; cases h
  · rw [if_neg hl] at h
    injection h with h
    subst h
    rfl

theorem calc_stats_isSome (l : List Rat) (hl : ¬l.isEmpty = true) :
    ∃ s, calc_stats l = some s := by
  rw [calc_stats, if_neg hl]
  exact ⟨_, rfl⟩

theorem statsEntry_count (v : List Nat) :
    countOf (statsEntry v) = if v.isEmpty then none else some v.length := by
  by_cases hv : v.isEmpty
  · rw [statsEntry, if_pos hv, if_pos hv]; rfl
  · rw [statsEntry, if_neg hv, if_neg hv]
    have hm : ¬(v.map fun x : Nat => (x : Rat)).isEmpty = true := by
      cases v with
      | nil => exact absurd rfl hv
      | cons a as => simp
    obtain ⟨s, hs⟩ := calc_stats_isSome _ hm
    rw [hs, countOf, Option.map_some']
    rw [calc_stats_count _ _ hs, List.length_map]

theorem analyze_log_fields (lines : List (List Char)) (r : SourceResult)
    (h : analyze_log lines = Except.ok r) :
    parse_freeze_rate lines = Except.ok r.freeze
    ∧ r.timing
      = ⟨statsEntry (parse_timing_breakdown lines).e2e,
         statsEntry (parse_timing_breakdown lines).encode,
         statsEntry (parse_timing_breakdown lines).pacer,
         statsEntry (parse_timing_breakdown lines).network,
         statsEntry (parse_timing_breakdown lines).jitter_buf,
         statsEntry (parse_timing_breakdown lines).packet_buf,
         statsEntry (parse_timing_breakdown lines).frame_buf,
         statsEntry (parse_timing_breakdown lines).decode⟩
    ∧ r.bitrate_mbps
      = (match parse_bitrate lines, r.freeze with
         | some b, some fi =>
           if b ≠ 0 ∧ 0 < fi.playback_duration_ms then
             some ((b : Rat) * 8 / (fi.playback_duration_ms : Rat) / 1000)
           else none
         | _, _ => none) := by
  rw [analyze_log] at h
  cases hp : parse_freeze_rate lines with
  | error e => rw [hp] at h; exact absurd h (by simp [Except.map])
  | ok fi =>
    rw [hp] at h
    simp only [Except.map] at h
    injection h with h
    subst h
    exact ⟨rfl, rfl, rfl⟩

/-- Claim C10: a line matching the strict timing pattern contributes one
sample to all eight channels at once, so the eight channel lists always
have equal length; consequently a per-source result has either all eight
timing summaries present with one common positive count, or none at all. -/
theorem c10_channels_all_or_nothing (lines : List (List Char)) :
    ((parse_timing_breakdown lines).e2e.length = (parse_timing_breakdown lines).encode.length
     ∧ (parse_timing_breakdown lines).e2e.length = (parse_timing_breakdown lines).pacer.length
     ∧ (parse_timing_breakdown lines).e2e.length = (parse_timing_breakdown lines).network.length
     ∧ (parse_timing_breakdown lines).e2e.length = (parse_timing_breakdown lines).jitter_buf.length
     ∧ (parse_timing_breakdown lines).e2e.length = (parse_timing_breakdown lines).packet_buf.length
     ∧ (parse_timing_breakdown lines).e2e.length = (parse_timing_breakdown lines).frame_buf.length
     ∧ (parse_timing_breakdown lines).e2e.length = (parse_timing_breakdown lines).decode.length)
    ∧ ∀ r : SourceResult, analyze_log lines = Except.ok r →
        (r.timing.e2e = none ∧ r.timing.encode = none ∧ r.timing.pacer = none
          ∧ r.timing.network = none ∧ r.timing.jitter_buf = none ∧ r.timing.packet_buf = none
          ∧ r.timing.frame_buf = none ∧ r.timing.decode = none)
        ∨ (∃ n, 0 < n
            ∧ countOf r.timing.e2e = some n ∧ countOf r.timing.encode = some n
            ∧ countOf r.timing.pacer = some n ∧ countOf r.timing.network = some n
            ∧ countOf r.timing.jitter_buf = some n ∧ countOf r.timing.packet_buf = some n
            ∧ countOf r.timing.frame_buf = some n ∧ countOf r.timing.decode = some n) := by
  constructor
  · rw [parse_timing_channels lines]
    refine ⟨?_, ?_, ?_, ?_, ?_, ?_, ?_⟩ <;>
      simp [tmChannel_length]
  · intro r h
    obtain ⟨-, htm, -⟩ := analyze_log_fields lines r h
    have ht2 : r.timing
        = ⟨statsEntry (tmChannel TimingSample.e2e lines),
           statsEntry (tmChannel TimingSample.encode lines),
           statsEntry (tmChannel TimingSample.pacer lines),
           statsEntry (tmChannel TimingSample.network lines),
           statsEntry (tmChannel TimingSample.jitter_buf lines),
           statsEntry (tmChannel TimingSample.packet_buf lines),
           statsEntry (tmChannel TimingSample.frame_buf lines),
           statsEntry (tmChannel TimingSample.decode lines)⟩ := by
      rw [htm, parse_timing_channels lines]
    by_cases hN : lines.countP (fun l => (timingLine l).isSome) = 0
    · left
      have key0 : ∀ f : TimingSample → Nat, statsEntry (tmChannel f lines) = none := by
        intro f
        have hz : tmChannel f lines = [] :=
          List.length_eq_zero.mp (by rw [tmChannel_length]; exact hN)
        rw [hz]
        rfl
      rw [ht2]
      exact ⟨key0 _, key0 _, key0 _, key0 _, key0 _, key0 _, key0 _, key0 _⟩
    · right
      have hne : ∀ f : TimingSample → Nat, (tmChannel f lines).isEmpty = false := by
        intro f
        cases hc : tmChannel f lines with
        | nil =>
          exfalso
          exact hN (by rw [← tmChannel_length f lines, hc]; rfl)
        | cons a as => rfl
      have key : ∀ f : TimingSample → Nat,
          countOf (statsEntry (tmChannel f lines))
            = some (lines.countP (fun l => (timingLine l).isSome)) := by
        intro f
        rw [statsEntry_count, hne f]
        simp [tmChannel_length]
      refine ⟨lines.countP (fun l => (timingLine l).isSome), Nat.pos_of_ne_zero hN,
        ?_, ?_, ?_, ?_, ?_, ?_, ?_, ?_⟩ <;>
        (rw [ht2]; exact key _)

/-- Concrete instance of C10: one matching timing line gives all eight
summaries with common count 1. -/
theorem c10_channels_all_or_nothing_witness :
    analyze_log [tlSample] = Except.ok wRes10
    ∧ ((wRes10.timing.e2e = none ∧ wRes10.timing.encode = none ∧ wRes10.timing.pacer = none
        ∧ wRes10.timing.network = none ∧ wRes10.timing.jitter_buf = none
        ∧ wRes10.timing.packet_buf = none ∧ wRes10.timing.frame_buf = none
        ∧ wRes10.timing.decode = none)
      ∨ (∃ n, 0 < n
          ∧ countOf wRes10.timing.e2e = some n ∧ countOf wRes10.timing.encode = some n
          ∧ countOf wRes10.timing.pacer = some n ∧ countOf wRes10.timing.network = some n
          ∧ countOf wRes10.timing.jitter_buf = some n ∧ countOf wRes10.timing.packet_buf = some n
          ∧ countOf wRes10.timing.frame_buf = some n ∧ countOf wRes10.timing.decode = some n)) :=
  ⟨by with_unfolding_all rfl,
   (c10_channels_all_or_nothing [tlSample]).2 wRes10 (by with_unfolding_all rfl)⟩

/-- Claim C7: the Summarizer returns the absence sentinel None on an empty
sample sequence, and in a per-source result an empty timing channel, a
missing freeze snapshot and a missing bitrate snapshot each appear as an
explicit absence, never as a zero value. -/
theorem c7_absence_explicit :
    calc_stats [] = none
    ∧ (∀ lines r, analyze_log lines = Except.ok r →
        ((parse_timing_breakdown lines).e2e = [] → r.timing.e2e = none)
        ∧ ((parse_timing_breakdown lines).encode = [] → r.timing.encode = none)
        ∧ ((parse_timing_breakdown lines).pacer = [] → r.timing.pacer = none)
        ∧ ((parse_timing_breakdown lines).network = [] → r.timing.network = none)
        ∧ ((parse_timing_breakdown lines).jitter_buf = [] → r.timing.jitter_buf = none)
        ∧ ((parse_timing_breakdown lines).packet_buf = [] → r.timing.packet_buf = none)
        ∧ ((parse_timing_breakdown lines).frame_buf = [] → r.timing.frame_buf = none)
        ∧ ((parse_timing_breakdown lines).decode = [] → r.timing.decode = none)
        ∧ (parse_freeze_rate lines = Except.ok none → r.freeze = none)
        ∧ (parse_bitrate lines = none → r.bitrate_mbps = none)) := by
  refine ⟨rfl, ?_⟩
  intro lines r h
  obtain ⟨hfz, htm, hbr⟩ := analyze_log_fields lines r h
  refine ⟨?_, ?_, ?_, ?_, ?_, ?_, ?_, ?_, ?_, ?_⟩
  · intro hch; rw [htm]; show statsEntry _ = none; rw [hch]; rfl
  · intro hch; rw [htm]; show statsEntry _ = none; rw [hch]; rfl
  · intro hch; rw [htm]; show statsEntry _ = none; rw [hch]; rfl
  · intro hch; rw [htm]; show statsEntry _ = none; rw [hch]; rfl
  · intro hch; rw [htm]; show statsEntry _ = none; rw [hch]; rfl
  · intro hch; rw [htm]; show statsEntry _ = none; rw [hch]; rfl
  · intro hch; rw [htm]; show statsEntry _ = none; rw [hch]; rfl
  · intro hch; rw [htm]; show statsEntry _ = none; rw [hch]; rfl
  · intro hz
    rw [hz] at hfz
    injection hfz with h2
    exact h2.symm
  · intro hbz
    rw [hbr, hbz]

/-- Concrete instance of C7 at the empty source. -/
theorem c7_absence_explicit_witness :
    analyze_log [] = Except.ok wRes7
    ∧ wRes7.timing.e2e = none ∧ wRes7.freeze = none ∧ wRes7.bitrate_mbps = none :=
  ⟨by rfl,
   (c7_absence_explicit.2 [] wRes7 (by rfl)).1 (by rfl),
   (c7_absence_explicit.2 [] wRes7 (by rfl)).2.2.2.2.2.2.2.2.1 (by rfl),
   (c7_absence_explicit.2 [] wRes7 (by rfl)).2.2.2.2.2.2.2.2.2 (by rfl)⟩

/-- C2 fails as stated: a parsed bitrate snapshot with byte count 0,
together with a parsed freeze snapshot whose playback duration is positive,
yields an absent bitrate_mbps, although the claim requires the field to be
present whenever a bitrate snapshot and such a freeze snapshot were parsed
(the truthiness test of the source drops a zero byte count). -/
theorem c2_derived_bitrate_counterexample :
    parse_bitrate [blZero, flEight] = some 0
    ∧ parse_freeze_rate [blZero, flEight] = Except.ok (some fi8)
    ∧ 0 < fi8.playback_duration_ms
    ∧ analyze_log [blZero, flEight] = Except.ok wRes2z
    ∧ wRes2z.bitrate_mbps = none :=
  ⟨by decide, by with_unfolding_all rfl, by decide, by with_unfolding_all rfl, rfl⟩

/-- Claim C2 amended: the result carries
bitrate_mbps = payload_bytes_received * 8 / playback_duration_ms / 1000
exactly when a bitrate snapshot with a nonzero byte count was parsed, a
freeze snapshot was parsed, and that snapshot's playback duration is
positive; otherwise the field is absent (never zero, never an error). -/
theorem c2_derived_bitrate (lines : List (List Char)) (r : SourceResult)
    (h : analyze_log lines = Except.ok r) :
    (r.bitrate_mbps ≠ none ↔
      ∃ b fi, parse_bitrate lines = some b ∧ b ≠ 0
        ∧ parse_freeze_rate lines = Except.ok (some fi) ∧ 0 < fi.playback_duration_ms)
    ∧ (∀ b fi, parse_bitrate lines = some b → b ≠ 0 →
        parse_freeze_rate lines = Except.ok (some fi) → 0 < fi.playback_duration_ms →
        r.bitrate_mbps = some ((b : Rat) * 8 / (fi.playback_duration_ms : Rat) / 1000)) := by
  obtain ⟨hfz, -, hbr⟩ := analyze_log_fields lines r h
  constructor
  · constructor
    · intro hne
      rw [hbr] at hne
      cases hb : parse_bitrate lines with
      | none => rw [hb] at hne; exact absurd rfl hne
      | some b =>
        cases hf : r.freeze with
        | none => rw [hb, hf] at hne; exact absurd rfl hne
        | some fi =>
          rw [hb, hf] at hne
          by_cases hc : b ≠ 0 ∧ 0 < fi.playback_duration_ms
          · refine ⟨b, fi, rfl, hc.1, ?_, hc.2⟩
            rw [← hf]
            exact hfz
          · exfalso
            apply hne
            simp only [hc]
            rfl
    · rintro ⟨b, fi, hb, hbne, hfr, hpl⟩
      have hf : r.freeze = some fi := by
        rw [hfr] at hfz
        injection hfz with h2
        exact h2.symm
      rw [hbr, hb, hf]
      simp [hbne, hpl]
  · intro b fi hb hbne hfr hpl
    have hf : r.freeze = some fi := by
      rw [hfr] at hfz
      injection hfz with h2
      exact h2.symm
    rw [hbr, hb, hf]
    simp [hbne, hpl]

/-- Concrete instance of C2: one million payload bytes over 8000 ms of
playback give a derived bitrate of exactly 1.0 Mbps. -/
theorem c2_derived_bitrate_witness :
    analyze_log [blMeg, flEight] = Except.ok wRes2m
    ∧ parse_bitrate [blMeg, flEight] = some 1000000
    ∧ parse_freeze_rate [blMeg, flEight] = Except.ok (some fi8)
    ∧ wRes2m.bitrate_mbps
        = some ((1000000 : Rat) * 8 / ((fi8.playback_duration_ms : Nat) : Rat) / 1000)
    ∧ wRes2m.bitrate_mbps = some 1 :=
  ⟨by with_unfolding_all rfl, by decide, by with_unfolding_all rfl,
   (c2_derived_bitrate [blMeg, flEight] wRes2m (by with_unfolding_all rfl)).2
     1000000 fi8 (by decide) (by decide) (by with_unfolding_all rfl) (by decide),
   by with_unfolding_all rfl⟩

theorem lastD_cons (x : α) (l : List α) (a : Option α) :
    lastD (x :: l) a = lastD l (some x) := by
  cases l with
  | nil => rfl
  | cons y ys =>
    rw [lastD, lastD, List.getLast?_cons_cons]
    cases h : (y :: ys).getLast? with
    | none => exact absurd (List.getLast?_eq_none_iff.mp h) (List.cons_ne_nil y ys)
    | some z => rfl

theorem lastD_nil_arg (l : List α) : lastD l none = l.getLast? := by
  cases hl : l.getLast? with
  | none => rw [lastD, hl]
  | some x => rw [lastD, hl]

theorem parseFreezeGo_ok (lines : List (List Char)) :
    ∀ acc, (∀ l ∈ lines, ratioOk l = true) →
      parseFreezeGo acc lines = Except.ok (lastD (lines.filterMap snapOfLine) acc) := by
  induction lines with
  | nil => intro acc _; rfl
  | cons line rest ih =>
    intro acc hok
    have hline := hok line (List.mem_cons_self line rest)
    have hrest : ∀ l ∈ rest, ratioOk l = true :=
      fun l hl => hok l (List.mem_cons_of_mem line hl)
    cases hm : freezeLineRaw line with
    | none =>
      have hsnap : snapOfLine line = none := by simp [snapOfLine, hm]
      have hstep : parseFreezeGo acc (line :: rest) = parseFreezeGo acc rest := by
        simp [parseFreezeGo, hm]
      rw [hstep, ih acc hrest]
      simp [List.filterMap_cons, hsnap]
    | some q =>
      obtain ⟨c, d, rs, p⟩ := q
      simp only [ratioOk, hm] at hline
      obtain ⟨rv, hrv⟩ := Option.isSome_iff_exists.mp hline
      have hsnap : snapOfLine line = some ⟨c, d, rv, p⟩ := by
        simp [snapOfLine, hm, hrv]
      have hstep : parseFreezeGo acc (line :: rest)
          = parseFreezeGo (some ⟨c, d, rv, p⟩) rest := by
        simp [parseFreezeGo, hm, hrv]
      rw [hstep, ih (some ⟨c, d, rv, p⟩) hrest]
      simp [List.filterMap_cons, hsnap, lastD_cons]

theorem parse_bitrate_go (lines : List (List Char)) :
    ∀ acc,
      lines.foldl
        (fun acc line =>
          match bitrateLine line with
          | some b => some b
          | none => acc) acc
      = lastD (lines.filterMap bitrateLine) acc := by
  induction lines with
  | nil => intro acc; rfl
  | cons line rest ih =>
    intro acc
    rw [List.foldl_cons]
    cases hm : bitrateLine line with
    | none =>
      rw [List.filterMap_cons, hm]
      exact ih acc
    | some b =>
      rw [List.filterMap_cons, hm, lastD_cons]
      exact ih (some b)

/-- C8 fails as stated: a line matched by the freeze pattern whose ratio
capture is not a float literal makes parse_freeze_rate raise instead of
returning the last matching snapshot or absence. -/
theorem c8_last_wins_counterexample :
    (freezeLineRaw flBadRatio).isSome = true
    ∧ parse_freeze_rate [flBadRatio] = Except.error () :=
  ⟨by decide, by rfl⟩

/-- Claim C8 amended: on sources where every freeze-matching line carries a
float-parseable ratio capture, the freeze parser returns the snapshot of
the last matching line (absence when none matches), earlier matches being
overwritten; the bitrate parser unconditionally returns the byte count of
the last matching line (absence when none matches). A matching line whose
ratio capture float() rejects instead raises and aborts the parse. -/
theorem c8_last_wins :
    (∀ lines, (∀ l ∈ lines, ratioOk l = true) →
      parse_freeze_rate lines = Except.ok ((lines.filterMap snapOfLine).getLast?))
    ∧ (∀ lines, parse_bitrate lines = (lines.filterMap bitrateLine).getLast?) := by
  constructor
  · intro lines hok
    rw [parse_freeze_rate, parseFreezeGo_ok lines none hok, lastD_nil_arg]
  · intro lines
    rw [parse_bitrate, parse_bitrate_go lines none, lastD_nil_arg]

/-- Concrete instance of C8: of two matching freeze lines the second one
wins; of two matching bitrate lines the second one wins. -/
theorem c8_last_wins_witness :
    (∀ l ∈ [flOne, flEight], ratioOk l = true)
    ∧ parse_freeze_rate [flOne, flEight]
        = Except.ok (([flOne, flEight].filterMap snapOfLine).getLast?)
    ∧ parse_freeze_rate [flOne, flEight] = Except.ok (some fi8)
    ∧ parse_bitrate [blZero, blMeg] = ([blZero, blMeg].filterMap bitrateLine).getLast?
    ∧ parse_bitrate [blZero, blMeg] = some 1000000 :=
  ⟨by decide, c8_last_wins.1 [flOne, flEight] (by decide),
   by with_unfolding_all rfl, c8_last_wins.2 [blZero, blMeg], by decide⟩

/-- C5 fails as stated: in directory mode an unreadable source does not
yield a reported per-source failure with the run continuing; the same
remaining source that is analyzable on its own is never reached, because
the I/O error propagates and aborts the whole run. -/
theorem c5_directory_counterexample :
    run_directory [none, some [tlSample]] = Except.error ()
    ∧ run_directory [some [tlSample]] = Except.ok [wRes10] :=
  ⟨rfl, by with_unfolding_all rfl⟩

/-- Claim C5 amended: the directory branch of main has no per-source error
handling: any unreadable source makes the whole run abort with the I/O
error, whatever comes before or after it; a run that does complete yields
exactly one result per source. -/
theorem c5_directory_abort :
    (∀ pre post, run_directory (pre ++ none :: post) = Except.error ())
    ∧ (∀ sources rs, run_directory sources = Except.ok rs → rs.length = sources.length) := by
  constructor
  · intro pre post
    induction pre with
    | nil => rfl
    | cons s pre ih =>
      rw [List.cons_append, run_directory]
      cases s with
      | none => rfl
      | some lines =>
        show (match analyze_log lines with
          | Except.error e => Except.error e
          | Except.ok r =>
            match run_directory (pre ++ none :: post) with
            | Except.error e => Except.error e
            | Except.ok rs => Except.ok (r :: rs)) = Except.error ()
        cases analyze_log lines with
        | error e => rfl
        | ok r => rw [ih]
  · intro sources
    induction sources with
    | nil =>
      intro rs h
      injection h with h
      rw [← h]
      rfl
    | cons s rest ih =>
      intro rs h
      rw [run_directory] at h
      cases hs : readSource s with
      | error e => simp only [hs] at h; cases h
      | ok lines =>
        simp only [hs] at h
        cases ha : analyze_log lines with
        | error e => simp only [ha] at h; cases h
        | ok r =>
          simp only [ha] at h
          cases hr : run_directory rest with
          | error e => simp only [hr] at h; cases h
          | ok rs2 =>
            simp only [hr] at h
            injection h with h
            rw [← h, List.length_cons, List.length_cons, ih rs2 hr]

/-- Concrete instance of C5: a lone unreadable source aborts; a lone
readable empty source yields exactly one result. -/
theorem c5_directory_abort_witness :
    run_directory [none] = Except.error ()
    ∧ run_directory [some []] = Except.ok [wRes7]
    ∧ ([wRes7] : List SourceResult).length = [some ([] : List (List Char))].length :=
  ⟨c5_directory_abort.1 [] [], by rfl,
   c5_directory_abort.2 [some []] [wRes7] (by rfl)⟩

/-- C6 fails as stated: the reconstructor's own line matching is not the
freeze parser's: a line with the bare marker and only count and duration
fields is matched by the reconstructor but yields no FreezeSnapshot, and on
a line with a repeated duration field both match but extract different
durations (the parser's lazy gap takes the first occurrence, the
reconstructor's greedy gap the last). -/
theorem c6_reconstructor_matching_counterexample :
    reconLine flNoBracket = some (3, 100)
    ∧ freezeLineRaw flNoBracket = none
    ∧ freezeLineRaw flTwoDur = some (2, 50, "0.5".data, 100)
    ∧ reconLine flTwoDur = some (2, 75) :=
  ⟨by decide, by decide, by decide, by decide⟩

/-- Claim C6 amended: the reconstructor scans the lines with its own,
strictly different pattern, so it does not in general consume the freeze
parser's snapshots; on canonical freeze lines (bracketed marker, all four
single-spaced fields, one occurrence each) the two matchers agree, both
succeeding with equal count and cumulative duration. -/
theorem c6_matchers_agree_on_canonical :
    extract_freeze_durations [flOne, flEight]
      = freezeDeltas ([flOne, flEight].filterMap reconLine)
    ∧ (freezeLineRaw flOne).map (fun q => (q.1, q.2.1)) = some (1, 100)
    ∧ reconLine flOne = some (1, 100)
    ∧ (freezeLineRaw flEight).map (fun q => (q.1, q.2.1)) = some (3, 120)
    ∧ reconLine flEight = some (3, 120) :=
  ⟨rfl, by decide, by decide, by decide, by decide⟩

theorem foldl_min_le (l : List Rat) :
    ∀ a : Rat, l.foldl min a ≤ a ∧ ∀ y ∈ l, l.foldl min a ≤ y := by
  induction l with
  | nil => intro a; exact ⟨le_refl a, by simp⟩
  | cons b l ih =>
    intro a
    rw [List.foldl_cons]
    refine ⟨le_trans (ih (min a b)).1 (min_le_left a b), ?_⟩
    intro y hy
    rcases List.mem_cons.mp hy with h1 | h1
    · subst h1
      exact le_trans (ih (min a y)).1 (min_le_right a y)
    · exact (ih (min a b)).2 y h1

theorem foldl_le_max (l : List Rat) :
    ∀ a : Rat, a ≤ l.foldl max a ∧ ∀ y ∈ l, y ≤ l.foldl max a := by
  induction l with
  | nil => intro a; exact ⟨le_refl a, by simp⟩
  | cons b l ih =>
    intro a
    rw [List.foldl_cons]
    refine ⟨le_trans (le_max_left a b) (ih (max a b)).1, ?_⟩
    intro y hy
    rcases List.mem_cons.mp hy with h1 | h1
    · subst h1
      exact le_trans (le_max_right a y) (ih (max a y)).1
    · exact (ih (max a b)).2 y h1

theorem npMin_le (l : List Rat) : ∀ y ∈ l, npMin l ≤ y := by
  cases l with
  | nil => simp
  | cons x xs =>
    intro y hy
    rcases List.mem_cons.mp hy with h1 | h1
    · subst h1; exact (foldl_min_le xs y).1
    · exact (foldl_min_le xs x).2 y h1

theorem le_npMax (l : List Rat) : ∀ y ∈ l, y ≤ npMax l := by
  cases l with
  | nil => simp
  | cons x xs =>
    intro y hy
    rcases List.mem_cons.mp hy with h1 | h1
    · subst h1; exact (foldl_le_max xs y).1
    · exact (foldl_le_max xs x).2 y h1

theorem toNat_floor_le (p : Rat) (h0 : 0 ≤ p) : ((⌊p⌋.toNat : Nat) : Rat) ≤ p := by
  have hf : 0 ≤ ⌊p⌋ := Int.floor_nonneg.mpr h0
  calc ((⌊p⌋.toNat : Nat) : Rat) = ((⌊p⌋ : Int) : Rat) := by exact_mod_cast Int.toNat_of_nonneg hf
    _ ≤ p := Int.floor_le p

theorem lt_toNat_floor_succ (p : Rat) (h0 : 0 ≤ p) : p < ((⌊p⌋.toNat : Nat) : Rat) + 1 := by
  have hf : 0 ≤ ⌊p⌋ := Int.floor_nonneg.mpr h0
  have hc : ((⌊p⌋.toNat : Nat) : Rat) = ((⌊p⌋ : Int) : Rat) := by
    exact_mod_cast Int.toNat_of_nonneg hf
  rw [hc]
  exact Int.lt_floor_add_one p

theorem toNat_floor_lt_length (p : Rat) (n : Nat) (h0 : 0 ≤ p)
    (hub : p ≤ (n : Rat) - 1) : ⌊p⌋.toNat < n := by
  have h1 := toNat_floor_le p h0
  have h2 : ((⌊p⌋.toNat : Nat) : Rat) < (n : Rat) := by linarith
  exact_mod_cast h2

theorem sorted_getElem_le (s : List Rat) (hs : List.Sorted (fun a b => a ≤ b) s)
    (i j : Nat) (hij : i ≤ j) (hj : j < s.length) : s[i] ≤ s[j] := by
  have hi : i < s.length := lt_of_le_of_lt hij hj
  have h2 := hs.rel_get_of_le (a := ⟨i, hi⟩) (b := ⟨j, hj⟩) (Fin.mk_le_mk.mpr hij)
  simpa [List.get_eq_getElem] using h2

theorem interpAt_eq_interp (s : List Rat) (pos : Rat) (i : Nat)
    (hieq : i = (⌊pos⌋).toNat) (h1 : i + 1 < s.length) :
    interpAt s pos = s[i] + (pos - (i : Rat)) * (s[i + 1] - s[i]) := by
  subst hieq
  have hi : (⌊pos⌋).toNat < s.length := by omega
  simp only [interpAt, List.getElem?_eq_getElem hi, List.getElem?_eq_getElem h1]

theorem interpAt_eq_last (s : List Rat) (pos : Rat) (i : Nat)
    (hieq : i = (⌊pos⌋).toNat) (hi : i < s.length) (h1 : ¬(i + 1 < s.length)) :
    interpAt s pos = s[i] := by
  subst hieq
  simp only [interpAt, List.getElem?_eq_getElem hi,
    List.getElem?_eq_none (show s.length ≤ (⌊pos⌋).toNat + 1 by omega)]

theorem get_le_interpAt (s : List Rat) (hs : List.Sorted (fun a b => a ≤ b) s)
    (pos : Rat) (h0 : 0 ≤ pos) (hi : (⌊pos⌋).toNat < s.length) :
    s[(⌊pos⌋).toNat] ≤ interpAt s pos := by
  by_cases h1 : (⌊pos⌋).toNat + 1 < s.length
  · rw [interpAt_eq_interp s pos _ rfl h1]
    have hab : s[(⌊pos⌋).toNat] ≤ s[(⌊pos⌋).toNat + 1] :=
      sorted_getElem_le s hs _ _ (Nat.le_succ _) h1
    have hfr : 0 ≤ pos - ((⌊pos⌋).toNat : Rat) := sub_nonneg.mpr (toNat_floor_le pos h0)
    nlinarith [mul_nonneg hfr (sub_nonneg.mpr hab)]
  · rw [interpAt_eq_last s pos _ rfl hi h1]

theorem interpAt_le_get_succ (s : List Rat) (hs : List.Sorted (fun a b => a ≤ b) s)
    (pos : Rat) (h0 : 0 ≤ pos) (h1 : (⌊pos⌋).toNat + 1 < s.length) :
    interpAt s pos ≤ s[(⌊pos⌋).toNat + 1] := by
  rw [interpAt_eq_interp s pos _ rfl h1]
  have hab : s[(⌊pos⌋).toNat] ≤ s[(⌊pos⌋).toNat + 1] :=
    sorted_getElem_le s hs _ _ (Nat.le_succ _) h1
  have hfr : pos - ((⌊pos⌋).toNat : Rat) < 1 := by
    have h2 := lt_toNat_floor_succ pos h0
    linarith
  nlinarith [mul_nonneg (by linarith : (0 : Rat) ≤ 1 - (pos - ((⌊pos⌋).toNat : Rat)))
    (sub_nonneg.mpr hab)]

theorem interpAt_le_last (s : List Rat) (hs : List.Sorted (fun a b => a ≤ b) s)
    (hn : 0 < s.length)
    (pos : Rat) (h0 : 0 ≤ pos) (hub : pos ≤ (s.length : Rat) - 1) :
    interpAt s pos ≤ s[s.length - 1] := by
  have hi : (⌊pos⌋).toNat < s.length := toNat_floor_lt_length pos s.length h0 hub
  by_cases h1 : (⌊pos⌋).toNat + 1 < s.length
  · exact le_trans (interpAt_le_get_succ s hs pos h0 h1)
      (sorted_getElem_le s hs _ _ (by omega) (by omega))
  · rw [interpAt_eq_last s pos _ rfl hi h1]
    exact sorted_getElem_le s hs _ _ (by omega) (by omega)

theorem interpAt_mono (s : List Rat) (hs : List.Sorted (fun a b => a ≤ b) s)
    (p1 p2 : Rat) (h0 : 0 ≤ p1) (h12 : p1 ≤ p2) (hub : p2 ≤ (s.length : Rat) - 1) :
    interpAt s p1 ≤ interpAt s p2 := by
  have h02 : 0 ≤ p2 := le_trans h0 h12
  have hi2 : (⌊p2⌋).toNat < s.length := toNat_floor_lt_length p2 s.length h02 hub
  have hii : (⌊p1⌋).toNat ≤ (⌊p2⌋).toNat := Int.toNat_le_toNat (Int.floor_mono h12)
  have hi1 : (⌊p1⌋).toNat < s.length := lt_of_le_of_lt hii hi2
  by_cases heq : (⌊p1⌋).toNat = (⌊p2⌋).toNat
  · by_cases h1 : (⌊p2⌋).toNat + 1 < s.length
    · rw [interpAt_eq_interp s p1 ((⌊p2⌋).toNat) heq.symm h1,
        interpAt_eq_interp s p2 ((⌊p2⌋).toNat) rfl h1]
      have hab : s[(⌊p2⌋).toNat] ≤ s[(⌊p2⌋).toNat + 1] :=
        sorted_getElem_le s hs _ _ (Nat.le_succ _) h1
      have hf : p1 - ((⌊p2⌋).toNat : Rat) ≤ p2 - ((⌊p2⌋).toNat : Rat) := by linarith
      exact add_le_add_left (mul_le_mul_of_nonneg_right hf (sub_nonneg.mpr hab)) _
    · rw [interpAt_eq_last s p1 ((⌊p2⌋).toNat) heq.symm hi2 h1,
        interpAt_eq_last s p2 ((⌊p2⌋).toNat) rfl hi2 h1]
  · have hlt : (⌊p1⌋).toNat < (⌊p2⌋).toNat := lt_of_le_of_ne hii heq
    have h1a : (⌊p1⌋).toNat + 1 < s.length := by omega
    calc interpAt s p1 ≤ s[(⌊p1⌋).toNat + 1] := interpAt_le_get_succ s hs p1 h0 h1a
      _ ≤ s[(⌊p2⌋).toNat] := sorted_getElem_le s hs _ _ (by omega) hi2
      _ ≤ interpAt s p2 := get_le_interpAt s hs p2 h02 hi2

theorem pos_nonneg_of_q (q : Rat) (n : Nat) (hn : 0 < n) (hq0 : 0 ≤ q) :
    0 ≤ q * ((n : Rat) - 1) / 100 := by
  have hn1 : (1 : Rat) ≤ (n : Rat) := by exact_mod_cast hn
  apply div_nonneg (mul_nonneg hq0 (by linarith)) (by norm_num)

theorem pos_le_of_q (q : Rat) (n : Nat) (hn : 0 < n) (hq0 : 0 ≤ q) (hq1 : q ≤ 100) :
    q * ((n : Rat) - 1) / 100 ≤ (n : Rat) - 1 := by
  have hn1 : (1 : Rat) ≤ (n : Rat) := by exact_mod_cast hn
  have hmul : q * ((n : Rat) - 1) ≤ 100 * ((n : Rat) - 1) :=
    mul_le_mul_of_nonneg_right hq1 (by linarith)
  calc q * ((n : Rat) - 1) / 100 ≤ 100 * ((n : Rat) - 1) / 100 :=
        (div_le_div_right (by norm_num)).mpr hmul
    _ = (n : Rat) - 1 := by ring

theorem percentile_mono (l : List Rat) (hl : l ≠ []) (q1 q2 : Rat)
    (h0 : 0 ≤ q1) (h12 : q1 ≤ q2) (h2 : q2 ≤ 100) :
    percentile l q1 ≤ percentile l q2 := by
  have hn : 0 < l.length := List.length_pos.mpr hl
  have hlen : (List.insertionSort (fun a b => a ≤ b) l).length = l.length :=
    List.length_insertionSort _ l
  have hs : List.Sorted (fun a b => a ≤ b) (List.insertionSort (fun a b => a ≤ b) l) :=
    List.sorted_insertionSort _ l
  have hn1 : (1 : Rat) ≤ (l.length : Rat) := by exact_mod_cast hn
  rw [percentile, percentile]
  apply interpAt_mono _ hs
  · exact pos_nonneg_of_q q1 l.length hn h0
  · apply div_le_div_of_nonneg_right ?_ (by norm_num)
    exact mul_le_mul_of_nonneg_right h12 (by linarith)
  · rw [hlen]
    exact pos_le_of_q q2 l.length hn (le_trans h0 h12) h2

theorem percentile_mem_bounds (l : List Rat) (hl : l ≠ []) (q : Rat)
    (hq0 : 0 ≤ q) (hq1 : q ≤ 100) :
    (∃ u ∈ l, u ≤ percentile l q) ∧ (∃ v ∈ l, percentile l q ≤ v) := by
  have hn : 0 < l.length := List.length_pos.mpr hl
  have hlen : (List.insertionSort (fun a b => a ≤ b) l).length = l.length :=
    List.length_insertionSort _ l
  have hs : List.Sorted (fun a b => a ≤ b) (List.insertionSort (fun a b => a ≤ b) l) :=
    List.sorted_insertionSort _ l
  have hperm : (List.insertionSort (fun a b => a ≤ b) l).Perm l :=
    List.perm_insertionSort _ l
  have hsn : 0 < (List.insertionSort (fun a b => a ≤ b) l).length := by rw [hlen]; exact hn
  have hpos0 : 0 ≤ q * ((l.length : Rat) - 1) / 100 := pos_nonneg_of_q q l.length hn hq0
  have hub : q * ((l.length : Rat) - 1) / 100
      ≤ ((List.insertionSort (fun a b => a ≤ b) l).length : Rat) - 1 := by
    rw [hlen]
    exact pos_le_of_q q l.length hn hq0 hq1
  have hi : (⌊q * ((l.length : Rat) - 1) / 100⌋).toNat
      < (List.insertionSort (fun a b => a ≤ b) l).length :=
    toNat_floor_lt_length _ _ hpos0 hub
  constructor
  · refine ⟨(List.insertionSort (fun a b => a ≤ b) l)[(⌊q * ((l.length : Rat) - 1) / 100⌋).toNat],
      hperm.subset (List.getElem_mem hi), ?_⟩
    rw [percentile]
    exact get_le_interpAt _ hs _ hpos0 hi
  · refine ⟨(List.insertionSort (fun a b => a ≤ b) l)[(List.insertionSort (fun a b => a ≤ b) l).length - 1],
      hperm.subset (List.getElem_mem (by omega)), ?_⟩
    rw [percentile]
    exact interpAt_le_last _ hs hsn _ hpos0 hub

/-- Claim C4: for every non-empty sample sequence the summary satisfies
min ≤ p10 ≤ p25 ≤ p50 ≤ p75 ≤ p90 ≤ max, and its count field is exactly
the length of the input sequence. -/
theorem c4_summary_ordering (l : List Rat) (s : DistributionSummary)
    (h : calc_stats l = some s) :
    s.min ≤ s.p10 ∧ s.p10 ≤ s.p25 ∧ s.p25 ≤ s.p50 ∧ s.p50 ≤ s.p75
    ∧ s.p75 ≤ s.p90 ∧ s.p90 ≤ s.max ∧ s.count = l.length := by
  rw [calc_stats] at h
  by_cases hl : l.isEmpty
  · rw [if_pos hl] at h
    cases h
  · rw [if_neg hl] at h
    injection h with h
    subst h
    have hlne : l ≠ [] := by
      cases l with
      | nil => exact absurd rfl hl
      | cons a as => exact List.cons_ne_nil a as
    refine ⟨?_, ?_, ?_, ?_, ?_, ?_, rfl⟩
    · obtain ⟨⟨u, hu, hule⟩, -⟩ := percentile_mem_bounds l hlne 10 (by norm_num) (by norm_num)
      exact le_trans (npMin_le l u hu) hule
    · exact percentile_mono l hlne 10 25 (by norm_num) (by norm_num) (by norm_num)
    · exact percentile_mono l hlne 25 50 (by norm_num) (by norm_num) (by norm_num)
    · exact percentile_mono l hlne 50 75 (by norm_num) (by norm_num) (by norm_num)
    · exact percentile_mono l hlne 75 90 (by norm_num) (by norm_num) (by norm_num)
    · obtain ⟨-, v, hv, hvle⟩ := percentile_mem_bounds l hlne 90 (by norm_num) (by norm_num)
      exact le_trans hvle (le_npMax l v hv)

/-- Concrete instance of C4 at the one-element sample list [5]. -/
theorem c4_summary_ordering_witness :
    calc_stats [(5 : Rat)] = some (singletonStats 5)
    ∧ ((singletonStats 5).min ≤ (singletonStats 5).p10
      ∧ (singletonStats 5).p10 ≤ (singletonStats 5).p25
      ∧ (singletonStats 5).p25 ≤ (singletonStats 5).p50
      ∧ (singletonStats 5).p50 ≤ (singletonStats 5).p75
      ∧ (singletonStats 5).p75 ≤ (singletonStats 5).p90
      ∧ (singletonStats 5).p90 ≤ (singletonStats 5).max
      ∧ (singletonStats 5).count = [(5 : Rat)].length) :=
  ⟨by with_unfolding_all rfl,
   c4_summary_ordering [(5 : Rat)] (singletonStats 5) (by with_unfolding_all rfl)⟩
